import Mathlib

/-!
Shallow embedding of the template-loader engine (`src/main.py`).

Conventions:
* A Python `str` is modelled as a `List Nat` of Unicode code points
  (`strLit` converts a Lean string literal).
* A Python `bytes` value is modelled as a `List Nat` of bytes.
* A relative filesystem path is a `List (List Nat)`: its segments.
* A directory tree (the extracted source tree, the staging tree and the
  live destination directory) is a `List Entry`.
-/

/-- Code points of a string literal (model of a Python `str` constant). -/
def strLit (s : String) : List Nat := s.data.map Char.toNat

/-- `listStarts t s` decides whether `t` is a leading segment of `s`
(model of Python `str.startswith` on code-point lists, also used for
filesystem-path containment segment-wise). -/
def listStarts [BEq α] : List α → List α → Bool
  | [], _ => true
  | _ :: _, [] => false
  | a :: as, b :: bs => a == b && listStarts as bs

/-- `containsSeq t s` decides whether `t` occurs as a contiguous
subsequence of `s` (model of Python's `t in s` substring test). -/
def containsSeq [BEq α] (t : List α) : List α → Bool
  | [] => t.isEmpty
  | c :: cs => listStarts t (c :: cs) || containsSeq t cs

/-- Lexicographic comparison of code-point lists
(model of Python `str` ordering, used by `sorted`). -/
def lexLeB : List Nat → List Nat → Bool
  | [], _ => true
  | _ :: _, [] => false
  | a :: as, b :: bs => if a < b then true else if a = b then lexLeB as bs else false

/-- Join path segments with `'/'` (code point 47): the string form of a
relative path, as produced by `str(PurePosixPath)`. -/
def pathStr : List (List Nat) → List Nat
  | [] => []
  | [s] => s
  | s :: s2 :: rest => s ++ 47 :: pathStr (s2 :: rest)

/-- Fuelled worker for `pyReplace`.  One unit of fuel is spent per step and
each step consumes at least one element, so `s.length` fuel is always
enough. -/
def pyReplaceGo (t r : List Nat) : Nat → List Nat → List Nat
  | _, [] => []
  | 0, s => s
  | fuel + 1, c :: cs =>
    if listStarts t (c :: cs) then r ++ pyReplaceGo t r fuel (cs.drop (t.length - 1))
    else c :: pyReplaceGo t r fuel cs

/-- Model of Python `s.replace(t, r)`: replace every non-overlapping
occurrence of `t` in `s` by `r`, scanning left to right.  The empty-token
case mirrors CPython, which inserts `r` around every element. -/
def pyReplace (t r s : List Nat) : List Nat :=
  match t with
  | [] => r ++ s.foldr (fun c acc => c :: (r ++ acc)) []
  | _ :: _ => pyReplaceGo t r s.length s

/-- A UTF-8 continuation byte (`0x80`–`0xBF`). -/
def contByte (b : Nat) : Bool := 128 ≤ b && b ≤ 191

/-- Admissible second byte of a three-byte UTF-8 sequence with lead `b`
(the narrowed ranges exclude overlong forms and surrogates, as CPython's
strict `utf-8` codec does). -/
def utf8Second3 (b b1 : Nat) : Bool :=
  if b == 224 then 160 ≤ b1 && b1 ≤ 191
  else if b == 237 then 128 ≤ b1 && b1 ≤ 159
  else contByte b1

/-- Admissible second byte of a four-byte UTF-8 sequence with lead `b`
(the narrowed ranges exclude overlong forms and code points above
`U+10FFFF`). -/
def utf8Second4 (b b1 : Nat) : Bool :=
  if b == 240 then 144 ≤ b1 && b1 ≤ 191
  else if b == 244 then 128 ≤ b1 && b1 ≤ 143
  else contByte b1

/-- Strict UTF-8 decoding of a byte list to code points
(model of Python `bytes.decode("utf-8")`: `none` models
`UnicodeDecodeError`). -/
def utf8Decode : List Nat → Option (List Nat)
  | [] => some []
  | b :: bs =>
    if b ≤ 127 then
      (utf8Decode bs).map (fun cps => b :: cps)
    else if 194 ≤ b && b ≤ 223 then
      match bs with
      | b1 :: rest =>
        if contByte b1 then
          (utf8Decode rest).map (fun cps => ((b - 192) * 64 + (b1 - 128)) :: cps)
        else none
      | [] => none
    else if 224 ≤ b && b ≤ 239 then
      match bs with
      | b1 :: b2 :: rest =>
        if utf8Second3 b b1 && contByte b2 then
          (utf8Decode rest).map
            (fun cps => ((b - 224) * 4096 + (b1 - 128) * 64 + (b2 - 128)) :: cps)
        else none
      | _ => none
    else if 240 ≤ b && b ≤ 244 then
      match bs with
      | b1 :: b2 :: b3 :: rest =>
        if utf8Second4 b b1 && contByte b2 && contByte b3 then
          (utf8Decode rest).map
            (fun cps =>
              ((b - 240) * 262144 + (b1 - 128) * 4096 + (b2 - 128) * 64 + (b3 - 128)) :: cps)
        else none
      | _ => none
    else none

/-- UTF-8 encoding of one code point (model of Python `str.encode("utf-8")`,
pointwise). -/
def utf8EncodeChar (c : Nat) : List Nat :=
  if c ≤ 127 then [c]
  else if c ≤ 2047 then [192 + c / 64, 128 + c % 64]
  else if c ≤ 65535 then [224 + c / 4096, 128 + c / 64 % 64, 128 + c % 64]
  else [240 + c / 262144, 128 + c / 4096 % 64, 128 + c / 64 % 64, 128 + c % 64]

/-- UTF-8 encoding of a code-point list (model of Python
`str.encode("utf-8")`). -/
def utf8Encode (s : List Nat) : List Nat := (s.map utf8EncodeChar).flatten

/-- Model of `_is_binary_bytes` (src/main.py:31-43): a NUL byte means
binary; otherwise the sample is binary exactly when strict UTF-8 decoding
fails.  Total — the source function has no other outcome. -/
def is_binary_bytes (sample : List Nat) : Bool :=
  if sample.contains 0 then true
  else
    match utf8Decode sample with
    | some _ => false
    | none => true

/-- The fixed primary placeholder (src/main.py:12). -/
def PLACEHOLDER_TOKEN : List Nat := strLit "addon_hello_world"

/-- The fixed secondary, content-only placeholder (src/main.py:13). -/
def MAINTAINER_PLACEHOLDER : List Nat := strLit "MAINTAINER_STRING"

/-- The fixed exclusion set (src/main.py:14-16). -/
def EXCLUDE_FILES : List (List Nat) := [strLit "README.md"]

/-- The configuration driving rewriting (spec §3 `ReplacementSpec`): in the
source, `primaryToken`/`secondaryToken` are the module constants and
`primaryReplacement`/`secondaryReplacement` are the CLI's `addon_name` and
optional `maintainer`. -/
structure ReplacementSpec where
  primaryToken : List Nat
  primaryReplacement : List Nat
  secondaryToken : List Nat
  secondaryReplacement : Option (List Nat)
deriving DecidableEq

/-- Whether the secondary substitution actually runs: the source guards it
with Python truthiness (`if maintainer:` at src/main.py:90), so a missing
maintainer and an empty-string maintainer both disable it. -/
def secondaryActive (spec : ReplacementSpec) : Bool :=
  match spec.secondaryReplacement with
  | some m => !m.isEmpty
  | none => false

/-- The Token Rewriter on text content (src/main.py:89-91): primary
substitution, then — only when the maintainer string is truthy — secondary
substitution on the result. -/
def rewriteContent (spec : ReplacementSpec) (text : List Nat) : List Nat :=
  let replaced := pyReplace spec.primaryToken spec.primaryReplacement text
  match spec.secondaryReplacement with
  | some m => if m.isEmpty then replaced else pyReplace spec.secondaryToken m replaced
  | none => replaced

/-- Modelled from the spec: the Token Rewriter as §4.2/C7 words it, applying
the secondary substitution "if and only if a secondary replacement is
configured" — i.e. whenever one is present, including an empty one.  Kept
separate from `rewriteContent` (the source's behaviour) to compare the two. -/
def rewriteContentIfConfigured (spec : ReplacementSpec) (text : List Nat) : List Nat :=
  let replaced := pyReplace spec.primaryToken spec.primaryReplacement text
  match spec.secondaryReplacement with
  | some m => pyReplace spec.secondaryToken m replaced
  | none => replaced

/-- The Path Rewriter (src/main.py:70): every path segment independently
has the primary token replaced; the secondary token never touches paths. -/
def pathRewrite (spec : ReplacementSpec) (p : List (List Nat)) : List (List Nat) :=
  p.map (fun part => pyReplace spec.primaryToken spec.primaryReplacement part)

/-- A filesystem entry's kind: a directory, or a file owning its bytes. -/
inductive EntryKind where
  | directory
  | file (content : List Nat)
deriving DecidableEq

/-- A filesystem entry: a relative path (list of segments) plus kind.
A `List Entry` models a directory tree (source, staging or destination). -/
structure Entry where
  path : List (List Nat)
  kind : EntryKind
deriving DecidableEq

/-- Exclusion test (src/main.py:67): the entry's whole relative-path string
is compared against the exclusion set. -/
def isExcluded (p : List (List Nat)) : Bool := EXCLUDE_FILES.contains (pathStr p)

/-- File-content processing (src/main.py:79-92): a binary-classified
4096-byte sample or a failing full decode copies the raw bytes unchanged;
otherwise the decoded text is token-rewritten and re-encoded. -/
def processFileBytes (spec : ReplacementSpec) (raw : List Nat) : List Nat :=
  if is_binary_bytes (raw.take 4096) then raw
  else
    match utf8Decode raw with
    | none => raw
    | some text => utf8Encode (rewriteContent spec text)

/-- What the Tree Processor does to an entry's kind: directories pass
through; file bytes go through `processFileBytes`. -/
def processedKind (spec : ReplacementSpec) : EntryKind → EntryKind
  | .directory => .directory
  | .file raw => .file (processFileBytes spec raw)

/-- Per-entry step of the Tree Processor (src/main.py:65-92 loop body):
skip excluded paths, otherwise rewrite the path and process the kind. -/
def processEntry (spec : ReplacementSpec) (e : Entry) : Option Entry :=
  if isExcluded e.path then none
  else some { path := pathRewrite spec e.path, kind := processedKind spec e.kind }

/-- Processing order (src/main.py:65): entries sorted by their path string. -/
def entryLe (e1 e2 : Entry) : Prop := lexLeB (pathStr e1.path) (pathStr e2.path) = true

instance : DecidableRel entryLe := fun e1 e2 => by unfold entryLe; infer_instance

/-- Sort a tree's entries by relative-path string (model of
`sorted(src_root.rglob("*"))`). -/
def sortEntries (l : List Entry) : List Entry := List.insertionSort entryLe l

/-- `Path.exists()` against a modelled directory tree. -/
def destExists (d : List Entry) (p : List (List Nat)) : Bool :=
  d.any (fun e => e.path == p)

/-- The node found at a path of a modelled directory tree, if any. -/
def lookupKind (d : List Entry) (p : List (List Nat)) : Option EntryKind :=
  (d.find? (fun e => e.path == p)).map Entry.kind

/-- `Path.is_dir()` against a modelled directory tree. -/
def isDirAt (d : List Entry) (p : List (List Nat)) : Bool :=
  match lookupKind d p with
  | some .directory => true
  | _ => false

/-- `Path.is_file()` against a modelled directory tree. -/
def isFileAt (d : List Entry) (p : List (List Nat)) : Bool :=
  match lookupKind d p with
  | some (.file _) => true
  | _ => false

/-- `Path.unlink()`: drop the entry at exactly `p`. -/
def removeKey (d : List Entry) (p : List (List Nat)) : List Entry :=
  d.filter (fun e => !(e.path == p))

/-- `shutil.rmtree(p)`: drop `p` and every entry below it. -/
def removeTreeAt (d : List Entry) (p : List (List Nat)) : List Entry :=
  d.filter (fun e => !(listStarts p e.path))

/-- `Path.mkdir(exist_ok=True)` for one path: create the directory node
unless something already sits there. -/
def mkdirOne (d : List Entry) (p : List (List Nat)) : List Entry :=
  if destExists d p then d else d ++ [⟨p, .directory⟩]

/-- The proper, nonempty leading subpaths of `p`, shortest first — what
`parents=True` creates on the way to `p`. -/
def properHeads (p : List (List Nat)) : List (List (List Nat)) :=
  ((List.range p.length).drop 1).map (fun i => p.take i)

/-- `dst.parent.mkdir(parents=True, exist_ok=True)`. -/
def mkdirParents (d : List Entry) (p : List (List Nat)) : List Entry :=
  (properHeads p).foldl mkdirOne d

/-- `dst.mkdir(parents=True, exist_ok=True)` at `p` itself. -/
def mkdirAll (d : List Entry) (p : List (List Nat)) : List Entry :=
  mkdirOne (mkdirParents d p) p

/-- `shutil.copy2(src, dst)` / `write`: (re)place the file node at `p`. -/
def setFile (d : List Entry) (p : List (List Nat)) (c : List Nat) : List Entry :=
  removeKey d p ++ [⟨p, .file c⟩]

/-- One iteration of the Tree Processor loop (src/main.py:65-97 body)
acting on the staging tree under construction: an excluded entry is
skipped; a directory is created together with its parents
(src/main.py:74); for a file the parent chain is created
(src/main.py:77) and the processed bytes are written at the rewritten
path (src/main.py:79-92). -/
def processStep (spec : ReplacementSpec) (d : List Entry) (e : Entry) : List Entry :=
  if isExcluded e.path then d
  else
    match e.kind with
    | .directory => mkdirAll d (pathRewrite spec e.path)
    | .file raw =>
      mkdirParents d (pathRewrite spec e.path)
        ++ [⟨pathRewrite spec e.path, .file (processFileBytes spec raw)⟩]

/-- The Tree Processor (src/main.py:57-97): fold the loop body over the
source entries in sorted order, starting from an empty scratch location.
Parent directories implied by `parents=True` are materialised even when
their own source entry was excluded. -/
def processTree (spec : ReplacementSpec) (entries : List Entry) : List Entry :=
  (sortEntries entries).foldl (processStep spec) []

/-- Whether an entry is a directory. -/
def entryIsDir (e : Entry) : Bool :=
  match e.kind with
  | .directory => true
  | .file _ => false

/-- Whether an entry is a file. -/
def entryIsFile (e : Entry) : Bool :=
  match e.kind with
  | .directory => false
  | .file _ => true

/-- One file copy of the Committer (src/main.py:188-196 loop body): under
`force`, an existing destination node is removed first (recursively for a
directory, directly for a file); then parents are ensured and the staged
bytes are written. -/
def commitFileStep (force : Bool) (d : List Entry) (e : Entry) : List Entry :=
  match e.kind with
  | .directory => d
  | .file c =>
    let d1 :=
      if force && destExists d e.path then
        if isDirAt d e.path then removeTreeAt d e.path
        else if isFileAt d e.path then removeKey d e.path
        else d
      else d
    setFile (mkdirParents d1 e.path) e.path c

/-- The Conflict Checker (src/main.py:170-175): the staged relative paths
that already exist at the destination, in staging order. -/
def conflictsOf (staging dest : List Entry) : List (List (List Nat)) :=
  (staging.filter (fun e => destExists dest e.path)).map Entry.path

/-- Report order for conflicts (src/main.py:180 `sorted(conflicts)`). -/
def pathLe (p q : List (List Nat)) : Prop := lexLeB (pathStr p) (pathStr q) = true

instance : DecidableRel pathLe := fun p q => by unfold pathLe; infer_instance

/-- Sort relative paths by their string form. -/
def sortPaths (l : List (List (List Nat))) : List (List (List Nat)) :=
  List.insertionSort pathLe l

/-- Outcome of the Committer: a conflict abort carrying the report and the
untouched destination, or a completed commit carrying the new destination. -/
inductive CommitResult where
  | conflictAbort (report : List (List (List Nat))) (dest : List Entry)
  | committed (dest : List Entry)
deriving DecidableEq

/-- The Committer (src/main.py:168-196): abort with the full sorted conflict
report when conflicts exist without `force`; otherwise create all staged
directories (sorted), then copy all staged files (sorted). -/
def commit (staging dest : List Entry) (force : Bool) : CommitResult :=
  let conflicts := conflictsOf staging dest
  if !conflicts.isEmpty && !force then
    .conflictAbort (sortPaths conflicts) dest
  else
    let d1 := (sortEntries (staging.filter entryIsDir)).foldl
      (fun d e => mkdirAll d e.path) dest
    let d2 := (sortEntries (staging.filter entryIsFile)).foldl (commitFileStep force) d1
    .committed d2

/-- The destination path of the generated README (src/main.py:198). -/
def README_PATH : List (List Nat) := [strLit "README.md"]

/-- The generated README body (src/main.py:201), UTF-8 encoded. -/
def readmeFor (name : List Nat) : List Nat :=
  utf8Encode (strLit "# " ++ name ++ strLit "\n\nDescription of " ++ name ++ strLit ".")

/-- README generation after a successful commit (src/main.py:198-202). -/
def readmeStep (d : List Entry) (name : List Nat) (force : Bool) : List Entry :=
  if !destExists d README_PATH || force then setFile d README_PATH (readmeFor name) else d

/-- `_iter_single_top_level_dir`'s candidates (src/main.py:51): the
immediate subdirectories of the extraction root. -/
def topLevelDirs (extracted : List Entry) : List Entry :=
  extracted.filter (fun e => e.path.length == 1 && entryIsDir e)

/-- The entries below a top-level directory, re-rooted at it (what
`src_root.rglob("*")` enumerates relative to `src_root`). -/
def underTop (top : Entry) (extracted : List Entry) : List Entry :=
  extracted.filterMap (fun e =>
    if listStarts top.path e.path && !(e.path == top.path) then
      some ⟨e.path.drop top.path.length, e.kind⟩
    else none)

/-- The engine from the extracted tree onward (src/main.py:153-206):
structural check, tree processing, empty check, commit, README generation.
Returns the process exit code and the final destination tree; exit codes
0 (success), 4 (structural failure), 5 (conflict abort) and 6 (empty
result) are the source's distinct outcomes on this stretch. -/
def runAfterExtract (extracted : List Entry) (spec : ReplacementSpec) (force : Bool)
    (dest : List Entry) : Nat × List Entry :=
  match topLevelDirs extracted with
  | [top] =>
    let staging := processTree spec (underTop top extracted)
    if staging.isEmpty then (6, dest)
    else
      match commit staging dest force with
      | .conflictAbort _ d => (5, d)
      | .committed d => (0, readmeStep d spec.primaryReplacement force)
  | _ => (4, dest)

/-- Projection of a `CommitResult` to the resulting destination tree. -/
def commitDest : CommitResult → List Entry
  | .conflictAbort _ d => d
  | .committed d => d

/-- Whether a `CommitResult` is a completed commit. -/
def commitOk : CommitResult → Bool
  | .conflictAbort _ _ => false
  | .committed _ => true

/-- Two entries occupying unrelated filesystem locations: neither path is a
leading subpath of the other.  Any two distinct files of a real directory
tree satisfy this. -/
def entrySeparate (e1 e2 : Entry) : Prop :=
  listStarts e1.path e2.path = false ∧ listStarts e2.path e1.path = false

/- ### Helper lemmas -/

theorem listStarts_self [BEq α] [LawfulBEq α] (p : List α) : listStarts p p = true := by
  induction p with
  | nil => rfl
  | cons a as ih => simp [listStarts, ih]

theorem listStarts_take [BEq α] [LawfulBEq α] (l : List α) (n : Nat) :
    listStarts (l.take n) l = true := by
  induction l generalizing n with
  | nil => cases n <;> rfl
  | cons a as ih =>
    cases n with
    | zero => rfl
    | succ m => simp [listStarts, ih]

theorem ne_of_listStarts_eq_false [BEq α] [LawfulBEq α] {p q : List α}
    (h : listStarts p q = false) : p ≠ q := by
  intro hpq
  rw [hpq, listStarts_self] at h
  exact Bool.true_eq_false.mp h

theorem containsSeq_nil_left [BEq α] (s : List α) : containsSeq ([] : List α) s = true := by
  cases s with
  | nil => rfl
  | cons c cs => simp [containsSeq, listStarts]

theorem pyReplaceGo_no_occur {t r : List Nat} :
    ∀ (fuel : Nat) (s : List Nat), s.length ≤ fuel → containsSeq t s = false →
      pyReplaceGo t r fuel s = s := by
  intro fuel
  induction fuel with
  | zero =>
    intro s hlen _
    cases s with
    | nil => rfl
    | cons c cs => simp at hlen
  | succ n ih =>
    intro s hlen hocc
    cases s with
    | nil => rfl
    | cons c cs =>
      rw [containsSeq, Bool.or_eq_false_iff] at hocc
      rw [pyReplaceGo, if_neg (by simp [hocc.1])]
      rw [ih cs (Nat.le_of_succ_le_succ hlen) hocc.2]

theorem pyReplace_no_occur {t r s : List Nat} (h : containsSeq t s = false) :
    pyReplace t r s = s := by
  cases t with
  | nil =>
    rw [containsSeq_nil_left] at h
    exact absurd h (by simp)
  | cons a as =>
    exact pyReplaceGo_no_occur s.length s (Nat.le_refl _) h

theorem lookupKind_filter (d : List Entry) (p : List (List Nat)) (f : Entry → Bool)
    (h : ∀ e : Entry, e.path = p → f e = true) :
    lookupKind (d.filter f) p = lookupKind d p := by
  induction d with
  | nil => rfl
  | cons e rest ih =>
    by_cases hp : e.path = p
    · rw [List.filter_cons, if_pos (h e hp)]
      unfold lookupKind
      rw [List.find?_cons_of_pos _ (by simp [hp]), List.find?_cons_of_pos _ (by simp [hp])]
    · rw [List.filter_cons]
      by_cases hf : f e = true
      · rw [if_pos hf]
        unfold lookupKind
        rw [List.find?_cons_of_neg _ (by simp [hp]), List.find?_cons_of_neg _ (by simp [hp])]
        have := ih
        unfold lookupKind at this
        exact this
      · rw [if_neg hf]
        rw [ih]
        unfold lookupKind
        rw [List.find?_cons_of_neg _ (by simp [hp])]

theorem lookupKind_append_single_other (d : List Entry) (p q : List (List Nat)) (k : EntryKind)
    (h : q ≠ p) : lookupKind (d ++ [⟨q, k⟩]) p = lookupKind d p := by
  unfold lookupKind
  rw [List.find?_append]
  cases hfd : d.find? (fun e => e.path == p) with
  | some e => simp [Option.or]
  | none =>
    have hq : (q == p) = false := beq_eq_false_iff_ne.mpr h
    simp [Option.or, List.find?, hq]

theorem lookupKind_removeKey_other (d : List Entry) (p q : List (List Nat)) (h : q ≠ p) :
    lookupKind (removeKey d q) p = lookupKind d p := by
  exact lookupKind_filter d p _ (fun e he => by simp [he, Ne.symm h])

theorem lookupKind_removeTreeAt_other (d : List Entry) (p q : List (List Nat))
    (h : listStarts q p = false) :
    lookupKind (removeTreeAt d q) p = lookupKind d p := by
  exact lookupKind_filter d p _ (fun e he => by simp [he, h])

theorem lookupKind_mkdirOne_other (d : List Entry) (p q : List (List Nat)) (h : q ≠ p) :
    lookupKind (mkdirOne d q) p = lookupKind d p := by
  unfold mkdirOne
  by_cases hex : destExists d q = true
  · rw [if_pos hex]
  · rw [if_neg hex]
    exact lookupKind_append_single_other d p q _ h

theorem lookupKind_foldl_mkdirOne (p : List (List Nat)) :
    ∀ (l : List (List (List Nat))) (d : List Entry), (∀ a ∈ l, a ≠ p) →
      lookupKind (l.foldl mkdirOne d) p = lookupKind d p := by
  intro l
  induction l with
  | nil => intro d _; rfl
  | cons a rest ih =>
    intro d h
    rw [List.foldl_cons, ih _ (fun b hb => h b (List.mem_cons_of_mem _ hb)),
      lookupKind_mkdirOne_other d p a (h a (List.mem_cons_self _ _))]

theorem properHeads_starts (q : List (List Nat)) :
    ∀ a ∈ properHeads q, listStarts a q = true := by
  intro a ha
  unfold properHeads at ha
  obtain ⟨i, _, rfl⟩ := List.mem_map.mp ha
  exact listStarts_take q i

theorem lookupKind_mkdirParents_other (d : List Entry) (p q : List (List Nat))
    (h : listStarts p q = false) :
    lookupKind (mkdirParents d q) p = lookupKind d p := by
  refine lookupKind_foldl_mkdirOne p _ d (fun a ha hap => ?_)
  subst hap
  rw [properHeads_starts q a ha] at h
  exact Bool.true_eq_false.mp h

theorem lookupKind_setFile_self (d : List Entry) (p : List (List Nat)) (c : List Nat) :
    lookupKind (setFile d p c) p = some (.file c) := by
  unfold setFile lookupKind
  rw [List.find?_append]
  have hnone : (removeKey d p).find? (fun e => e.path == p) = none := by
    rw [List.find?_eq_none]
    intro e he
    have := List.of_mem_filter he
    simpa using this
  rw [hnone]
  simp [Option.or, List.find?]

theorem lookupKind_setFile_other (d : List Entry) (p q : List (List Nat)) (c : List Nat)
    (h : q ≠ p) : lookupKind (setFile d q c) p = lookupKind d p := by
  unfold setFile
  rw [show removeKey d q ++ [(⟨q, .file c⟩ : Entry)] = removeKey d q ++ [⟨q, .file c⟩] from rfl]
  rw [lookupKind_append_single_other _ p q _ h]
  exact lookupKind_removeKey_other d p q h

theorem lookupKind_commitFileStep_other (force : Bool) (d : List Entry) (x : Entry)
    (p : List (List Nat)) (h1 : listStarts x.path p = false) (h2 : listStarts p x.path = false) :
    lookupKind (commitFileStep force d x) p = lookupKind d p := by
  unfold commitFileStep
  cases hk : x.kind with
  | directory => rfl
  | file c =>
    have hne : x.path ≠ p := ne_of_listStarts_eq_false h1
    rw [lookupKind_setFile_other _ p x.path c hne, lookupKind_mkdirParents_other _ p x.path h2]
    by_cases hc : (force && destExists d x.path) = true
    · rw [if_pos hc]
      by_cases hd : isDirAt d x.path = true
      · rw [if_pos hd]
        exact lookupKind_removeTreeAt_other d p x.path h1
      · rw [if_neg hd]
        by_cases hf : isFileAt d x.path = true
        · rw [if_pos hf]
          exact lookupKind_removeKey_other d p x.path hne
        · rw [if_neg hf]
    · rw [if_neg hc]

theorem lookupKind_commitFileStep_self (force : Bool) (d : List Entry) (x : Entry)
    (c : List Nat) (hk : x.kind = .file c) :
    lookupKind (commitFileStep force d x) x.path = some (.file c) := by
  unfold commitFileStep
  rw [hk]
  exact lookupKind_setFile_self _ x.path c

theorem lookupKind_foldl_commitFileStep (force : Bool) (p : List (List Nat)) :
    ∀ (l : List Entry) (d : List Entry),
      (∀ x ∈ l, listStarts x.path p = false ∧ listStarts p x.path = false) →
      lookupKind (l.foldl (commitFileStep force) d) p = lookupKind d p := by
  intro l
  induction l with
  | nil => intro d _; rfl
  | cons x rest ih =>
    intro d h
    rw [List.foldl_cons, ih _ (fun y hy => h y (List.mem_cons_of_mem _ hy)),
      lookupKind_commitFileStep_other force d x p (h x (List.mem_cons_self _ _)).1
        (h x (List.mem_cons_self _ _)).2]

theorem sortEntries_perm (l : List Entry) : (sortEntries l).Perm l :=
  List.perm_insertionSort entryLe l

theorem mem_sortEntries {l : List Entry} {e : Entry} : e ∈ sortEntries l ↔ e ∈ l :=
  List.mem_insertionSort entryLe

theorem mem_sortPaths {l : List (List (List Nat))} {p : List (List Nat)} :
    p ∈ sortPaths l ↔ p ∈ l :=
  List.mem_insertionSort pathLe

theorem entrySeparate_symm : ∀ {x y : Entry}, entrySeparate x y → entrySeparate y x :=
  fun h => ⟨h.2, h.1⟩

theorem mem_conflictsOf {staging dest : List Entry} {p : List (List Nat)} :
    p ∈ conflictsOf staging dest ↔ ∃ e ∈ staging, e.path = p ∧ destExists dest p = true := by
  unfold conflictsOf
  constructor
  · intro h
    obtain ⟨e, hef, rfl⟩ := List.mem_map.mp h
    obtain ⟨hes, hex⟩ := List.mem_filter.mp hef
    exact ⟨e, hes, rfl, hex⟩
  · rintro ⟨e, hes, rfl, hex⟩
    exact List.mem_map.mpr ⟨e, List.mem_filter.mpr ⟨hes, hex⟩, rfl⟩

theorem destExists_iff {d : List Entry} {p : List (List Nat)} :
    destExists d p = true ↔ ∃ e ∈ d, e.path = p := by
  unfold destExists
  rw [List.any_eq_true]
  simp only [beq_iff_eq]

theorem destExists_append {d1 d2 : List Entry} {p : List (List Nat)} :
    destExists (d1 ++ d2) p = (destExists d1 p || destExists d2 p) :=
  List.any_append

theorem destExists_single {q p : List (List Nat)} {k : EntryKind} :
    destExists [⟨q, k⟩] p = true ↔ p = q := by
  constructor
  · intro h
    simp [destExists] at h
    exact h.symm
  · rintro rfl
    simp [destExists]

theorem destExists_mkdirOne {d : List Entry} {q p : List (List Nat)} :
    destExists (mkdirOne d q) p = true ↔ destExists d p = true ∨ p = q := by
  unfold mkdirOne
  by_cases h : destExists d q = true
  · rw [if_pos h]
    constructor
    · exact Or.inl
    · rintro (hd | rfl)
      · exact hd
      · exact h
  · rw [if_neg h, destExists_append, Bool.or_eq_true, destExists_single]

theorem destExists_foldl_mkdirOne (p : List (List Nat)) :
    ∀ (L : List (List (List Nat))) (d : List Entry),
      destExists (L.foldl mkdirOne d) p = true ↔ destExists d p = true ∨ p ∈ L := by
  intro L
  induction L with
  | nil => intro d; simp
  | cons a rest ih =>
    intro d
    rw [List.foldl_cons, ih, destExists_mkdirOne]
    constructor
    · rintro ((hd | rfl) | hr)
      · exact Or.inl hd
      · exact Or.inr (List.mem_cons_self _ _)
      · exact Or.inr (List.mem_cons_of_mem _ hr)
    · rintro (hd | hm)
      · exact Or.inl (Or.inl hd)
      · rcases List.mem_cons.mp hm with rfl | hm2
        · exact Or.inl (Or.inr rfl)
        · exact Or.inr hm2

theorem destExists_mkdirParents {d : List Entry} {q p : List (List Nat)} :
    destExists (mkdirParents d q) p = true ↔ destExists d p = true ∨ p ∈ properHeads q :=
  destExists_foldl_mkdirOne p (properHeads q) d

theorem destExists_processStep {spec : ReplacementSpec} {d : List Entry} {e : Entry}
    {p : List (List Nat)} :
    destExists (processStep spec d e) p = true ↔
      destExists d p = true ∨ (isExcluded e.path = false ∧
        (pathRewrite spec e.path = p ∨ p ∈ properHeads (pathRewrite spec e.path))) := by
  obtain ⟨ep, ek⟩ := e
  by_cases hx : isExcluded ep = true
  · simp [processStep, hx]
  · have hx2 : isExcluded ep = false := by rwa [Bool.not_eq_true] at hx
    simp only [processStep]
    rw [if_neg hx]
    cases ek with
    | directory =>
      show destExists (mkdirAll d (pathRewrite spec ep)) p = true ↔ _
      unfold mkdirAll
      rw [destExists_mkdirOne, destExists_mkdirParents]
      simp only [hx2, true_and]
      constructor
      · rintro ((hd | hh) | rfl)
        · exact Or.inl hd
        · exact Or.inr (Or.inr hh)
        · exact Or.inr (Or.inl rfl)
      · rintro (hd | (rfl | hh))
        · exact Or.inl (Or.inl hd)
        · exact Or.inr rfl
        · exact Or.inl (Or.inr hh)
    | file raw =>
      show destExists (mkdirParents d (pathRewrite spec ep)
        ++ [⟨pathRewrite spec ep, .file (processFileBytes spec raw)⟩]) p = true ↔ _
      rw [destExists_append, Bool.or_eq_true, destExists_mkdirParents, destExists_single]
      simp only [hx2, true_and]
      constructor
      · rintro ((hd | hh) | rfl)
        · exact Or.inl hd
        · exact Or.inr (Or.inr hh)
        · exact Or.inr (Or.inl rfl)
      · rintro (hd | (rfl | hh))
        · exact Or.inl (Or.inl hd)
        · exact Or.inr rfl
        · exact Or.inl (Or.inr hh)

theorem destExists_foldl_processStep (spec : ReplacementSpec) (p : List (List Nat)) :
    ∀ (l : List Entry) (d : List Entry),
      destExists (l.foldl (processStep spec) d) p = true ↔
        destExists d p = true ∨ ∃ e ∈ l, isExcluded e.path = false ∧
          (pathRewrite spec e.path = p ∨ p ∈ properHeads (pathRewrite spec e.path)) := by
  intro l
  induction l with
  | nil => intro d; simp
  | cons e rest ih =>
    intro d
    rw [List.foldl_cons, ih, destExists_processStep]
    constructor
    · rintro ((hd | he) | ⟨e2, h2, hcond⟩)
      · exact Or.inl hd
      · exact Or.inr ⟨e, List.mem_cons_self _ _, he⟩
      · exact Or.inr ⟨e2, List.mem_cons_of_mem _ h2, hcond⟩
    · rintro (hd | ⟨e2, h2, hcond⟩)
      · exact Or.inl (Or.inl hd)
      · rcases List.mem_cons.mp h2 with rfl | h3
        · exact Or.inl (Or.inr hcond)
        · exact Or.inr ⟨e2, h3, hcond⟩

theorem mkdirOne_eq_append (d : List Entry) (q : List (List Nat)) :
    ∃ t, mkdirOne d q = d ++ t := by
  unfold mkdirOne
  by_cases h : destExists d q = true
  · exact ⟨[], by rw [if_pos h, List.append_nil]⟩
  · exact ⟨[⟨q, .directory⟩], by rw [if_neg h]⟩

theorem mkdirParents_eq_append (d : List Entry) (q : List (List Nat)) :
    ∃ t, mkdirParents d q = d ++ t := by
  unfold mkdirParents
  generalize properHeads q = L
  induction L generalizing d with
  | nil => exact ⟨[], (List.append_nil d).symm⟩
  | cons a rest ih =>
    obtain ⟨t0, h0⟩ := mkdirOne_eq_append d a
    obtain ⟨t1, h1⟩ := ih (mkdirOne d a)
    exact ⟨t0 ++ t1, by rw [List.foldl_cons, h1, h0, List.append_assoc]⟩

theorem processStep_eq_append (spec : ReplacementSpec) (d : List Entry) (e : Entry) :
    ∃ t, processStep spec d e = d ++ t := by
  obtain ⟨ep, ek⟩ := e
  by_cases hx : isExcluded ep = true
  · exact ⟨[], by simp [processStep, hx]⟩
  · simp only [processStep]
    rw [if_neg hx]
    cases ek with
    | directory =>
      show ∃ t, mkdirAll d (pathRewrite spec ep) = d ++ t
      unfold mkdirAll
      obtain ⟨t0, h0⟩ := mkdirParents_eq_append d (pathRewrite spec ep)
      obtain ⟨t1, h1⟩ := mkdirOne_eq_append (mkdirParents d (pathRewrite spec ep))
        (pathRewrite spec ep)
      exact ⟨t0 ++ t1, by rw [h1, h0, List.append_assoc]⟩
    | file raw =>
      obtain ⟨t0, h0⟩ := mkdirParents_eq_append d (pathRewrite spec ep)
      refine ⟨t0 ++ [⟨pathRewrite spec ep, .file (processFileBytes spec raw)⟩], ?_⟩
      show mkdirParents d (pathRewrite spec ep)
          ++ [⟨pathRewrite spec ep, .file (processFileBytes spec raw)⟩] = _
      rw [h0, List.append_assoc]

theorem mem_foldl_processStep {spec : ReplacementSpec} {x : Entry} :
    ∀ (l : List Entry) (d : List Entry), x ∈ d → x ∈ l.foldl (processStep spec) d := by
  intro l
  induction l with
  | nil => intro d h; exact h
  | cons e rest ih =>
    intro d h
    rw [List.foldl_cons]
    apply ih
    obtain ⟨t, ht⟩ := processStep_eq_append spec d e
    rw [ht]
    exact List.mem_append_left _ h

theorem mem_processStep_file {spec : ReplacementSpec} {e : Entry} {raw : List Nat}
    (d : List Entry) (hx : isExcluded e.path = false) (hk : e.kind = .file raw) :
    (⟨pathRewrite spec e.path, .file (processFileBytes spec raw)⟩ : Entry)
      ∈ processStep spec d e := by
  obtain ⟨ep, ek⟩ := e
  have hk2 : ek = EntryKind.file raw := hk
  subst hk2
  simp only [processStep]
  rw [if_neg (by simp [hx])]
  exact List.mem_append_right _ (List.mem_cons_self _ _)

/- ### Claims -/

/-- C1: with a non-empty conflict set and overwrite disabled, the commit
aborts: it returns a conflict report and the destination tree exactly as it
received it (no file changed, no entry added), and the report contains
every conflicting relative path, not just the first. -/
theorem commit_conflict_abort_no_writes (staging dest : List Entry)
    (h : conflictsOf staging dest ≠ []) :
    commit staging dest false = .conflictAbort (sortPaths (conflictsOf staging dest)) dest ∧
    commitDest (commit staging dest false) = dest ∧
    ∀ p, p ∈ sortPaths (conflictsOf staging dest) ↔
      ∃ e ∈ staging, e.path = p ∧ destExists dest p = true := by
  have hemp : (conflictsOf staging dest).isEmpty = false := List.isEmpty_eq_false.mpr h
  have hcommit : commit staging dest false
      = .conflictAbort (sortPaths (conflictsOf staging dest)) dest := by
    simp [commit, hemp]
  refine ⟨hcommit, by rw [hcommit]; rfl, fun p => ?_⟩
  rw [mem_sortPaths, mem_conflictsOf]

theorem commit_conflict_abort_no_writes_witness :
    commit [⟨[[3]], EntryKind.file [7]⟩] [⟨[[3]], EntryKind.file [9]⟩] false
      = .conflictAbort [[[3]]] [⟨[[3]], EntryKind.file [9]⟩] := by
  have h := (commit_conflict_abort_no_writes [⟨[[3]], EntryKind.file [7]⟩]
    [⟨[[3]], EntryKind.file [9]⟩] (by decide)).1
  rw [show sortPaths (conflictsOf [⟨[[3]], EntryKind.file [7]⟩] [⟨[[3]], EntryKind.file [9]⟩])
      = [[[3]]] from by decide] at h
  exact h

/-- C2 counterexample to the claim as stated: the excluded path
`README.md` names a *directory* holding the non-excluded file
`README.md/x`.  The directory entry is skipped (src/main.py:67-68), but
staging its child runs `dst_path.parent.mkdir(parents=True, exist_ok=True)`
(src/main.py:77), which recreates `README.md` in the staging tree — an
entry that is not the Path-Rewriter image of any non-excluded source
entry, so the claimed exact set equality ("no entries are added") fails. -/
theorem claim_staging_paths_exact_counterexample :
    isExcluded [strLit "README.md"] = true ∧
    destExists (processTree ⟨[1], [2], [3], none⟩
      [⟨[strLit "README.md"], EntryKind.directory⟩,
       ⟨[strLit "README.md", strLit "x"], EntryKind.file [65]⟩]) [strLit "README.md"] = true ∧
    [strLit "README.md"] ∉
      (([⟨[strLit "README.md"], EntryKind.directory⟩,
        ⟨[strLit "README.md", strLit "x"], EntryKind.file [65]⟩] : List Entry).filter
          (fun e => !isExcluded e.path)).map
        (fun e => pathRewrite ⟨[1], [2], [3], none⟩ e.path) := by
  decide

/-- C2 (amended): the staging tree's relative paths are exactly the
Path-Rewriter images of the non-excluded source paths *together with the
proper ancestor paths of those images* — the directories implicitly
materialised by `parents=True` (src/main.py:74,77).  In particular every
non-excluded source entry still has a staged counterpart at its rewritten
path, and the only possible extra entries are such ancestor directories
(which arise exactly when an excluded directory lies above a non-excluded
entry). -/
theorem staging_paths_rewritten_plus_parents (spec : ReplacementSpec)
    (entries : List Entry) (p : List (List Nat)) :
    (∃ e2 ∈ processTree spec entries, e2.path = p) ↔
    (∃ e ∈ entries, isExcluded e.path = false ∧
      (pathRewrite spec e.path = p ∨ p ∈ properHeads (pathRewrite spec e.path))) := by
  rw [← destExists_iff]
  unfold processTree
  rw [destExists_foldl_processStep]
  simp [destExists, mem_sortEntries]

/-- C3: the Classifier is total; a NUL byte forces Binary regardless of
decodability, otherwise the verdict is Text exactly when strict UTF-8
decoding succeeds, and the empty sample is Text. -/
theorem classifier_nul_and_decode (s : List Nat) :
    (s.contains 0 = true → is_binary_bytes s = true) ∧
    (s.contains 0 = false → (is_binary_bytes s = false ↔ (utf8Decode s).isSome = true)) ∧
    is_binary_bytes [] = false := by
  refine ⟨fun h => by unfold is_binary_bytes; rw [if_pos h], fun h => ?_, by decide⟩
  simp only [is_binary_bytes, h]
  cases hd : utf8Decode s with
  | some t => simp
  | none => simp

theorem classifier_nul_and_decode_witness :
    is_binary_bytes [0, 65] = true ∧ is_binary_bytes [104] = false :=
  ⟨(classifier_nul_and_decode [0, 65]).1 (by decide),
   ((classifier_nul_and_decode [104]).2.1 (by decide)).mpr (by decide)⟩

/-- C4: a file whose 4096-byte sample classifies as Binary, or whose full
content fails UTF-8 decoding, is staged byte-for-byte unchanged (no token
substitution), even inside a tree whose other files are rewritten. -/
theorem binary_content_copied_verbatim (spec : ReplacementSpec) (entries : List Entry)
    (e : Entry) (raw : List Nat) (he : e ∈ entries) (hk : e.kind = .file raw)
    (hx : isExcluded e.path = false)
    (hbin : is_binary_bytes (raw.take 4096) = true ∨ utf8Decode raw = none) :
    processFileBytes spec raw = raw ∧
    (⟨pathRewrite spec e.path, .file raw⟩ : Entry) ∈ processTree spec entries := by
  have hpf : processFileBytes spec raw = raw := by
    unfold processFileBytes
    rcases hbin with hb | hd
    · rw [if_pos hb]
    · by_cases hb : is_binary_bytes (raw.take 4096) = true
      · rw [if_pos hb]
      · rw [if_neg hb, hd]
  refine ⟨hpf, ?_⟩
  unfold processTree
  obtain ⟨l1, l2, hsplit⟩ := List.append_of_mem (mem_sortEntries.mpr he)
  rw [hsplit, List.foldl_append, List.foldl_cons]
  apply mem_foldl_processStep
  have hm := @mem_processStep_file spec e raw (List.foldl (processStep spec) [] l1) hx hk
  rw [hpf] at hm
  exact hm

theorem binary_content_copied_verbatim_witness :
    processFileBytes ⟨[1], [2], [3], none⟩ [0, 1, 2] = [0, 1, 2] ∧
    (⟨pathRewrite ⟨[1], [2], [3], none⟩ [[1]], .file [0, 1, 2]⟩ : Entry)
      ∈ processTree ⟨[1], [2], [3], none⟩
          [⟨[[1]], EntryKind.file [0, 1, 2]⟩, ⟨[[9]], EntryKind.file [1]⟩] :=
  binary_content_copied_verbatim ⟨[1], [2], [3], none⟩ _ ⟨[[1]], .file [0, 1, 2]⟩ [0, 1, 2]
    (by decide) rfl (by decide) (Or.inl (by decide))

/-- C5 counterexample to the claim as stated: overwrite is true and the
destination path `[[0]]` already exists for the staging entry
`⟨[[0]], directory⟩`, yet the Committer does not remove the existing
destination directory — its unrelated child `[[0],[2]]` survives the
commit, where the claimed recursive removal would have deleted it.  The
source only removes existing destination nodes for staging *file* entries
(src/main.py:190-194); staging directories reuse an existing directory. -/
theorem claim_force_removes_existing_counterexample :
    destExists [⟨[[0]], EntryKind.directory⟩, ⟨[[0], [2]], EntryKind.file [6]⟩] [[0]] = true ∧
    (⟨[[0]], EntryKind.directory⟩ : Entry)
      ∈ ([⟨[[0]], EntryKind.directory⟩, ⟨[[0], [1]], EntryKind.file [5]⟩] : List Entry) ∧
    commitOk (commit [⟨[[0]], EntryKind.directory⟩, ⟨[[0], [1]], EntryKind.file [5]⟩]
      [⟨[[0]], EntryKind.directory⟩, ⟨[[0], [2]], EntryKind.file [6]⟩] true) = true ∧
    lookupKind (commitDest (commit [⟨[[0]], EntryKind.directory⟩, ⟨[[0], [1]], EntryKind.file [5]⟩]
      [⟨[[0]], EntryKind.directory⟩, ⟨[[0], [2]], EntryKind.file [6]⟩] true)) [[0], [2]]
      = some (EntryKind.file [6]) := by
  decide

/-- C5 (amended to staging *file* entries): with overwrite true, for any
staging file entry whose destination path already exists, the commit
completes and the destination afterwards holds the staged content at that
path (the existing node — a whole directory or a file — having been
displaced).  `Pairwise entrySeparate` states that staged file paths do not
contain one another, which every real staging tree satisfies. -/
theorem commit_force_overwrites_file (staging dest : List Entry) (e : Entry) (c : List Nat)
    (hwf : (staging.filter entryIsFile).Pairwise entrySeparate)
    (he : e ∈ staging) (hk : e.kind = .file c) (_hex : destExists dest e.path = true) :
    commitOk (commit staging dest true) = true ∧
    lookupKind (commitDest (commit staging dest true)) e.path = some (.file c) := by
  have hcommit : commit staging dest true = .committed
      ((sortEntries (staging.filter entryIsFile)).foldl (commitFileStep true)
        ((sortEntries (staging.filter entryIsDir)).foldl (fun d x => mkdirAll d x.path) dest)) := by
    simp [commit]
  refine ⟨by rw [hcommit]; rfl, ?_⟩
  rw [hcommit]
  have hef : e ∈ staging.filter entryIsFile :=
    List.mem_filter.mpr ⟨he, by simp [entryIsFile, hk]⟩
  have hes : e ∈ sortEntries (staging.filter entryIsFile) := mem_sortEntries.mpr hef
  have hpair : (sortEntries (staging.filter entryIsFile)).Pairwise entrySeparate :=
    (List.Perm.pairwise_iff entrySeparate_symm (sortEntries_perm _)).mpr hwf
  obtain ⟨l1, l2, hsplit⟩ := List.append_of_mem hes
  show lookupKind ((sortEntries (staging.filter entryIsFile)).foldl (commitFileStep true) _)
    e.path = some (.file c)
  rw [hsplit, List.foldl_append, List.foldl_cons]
  rw [hsplit] at hpair
  obtain ⟨_, hp2, _⟩ := List.pairwise_append.mp hpair
  obtain ⟨hrel, _⟩ := List.pairwise_cons.mp hp2
  rw [lookupKind_foldl_commitFileStep true e.path l2 _
    (fun x hx => ⟨(hrel x hx).2, (hrel x hx).1⟩)]
  exact lookupKind_commitFileStep_self true _ e c hk

theorem commit_force_overwrites_file_witness :
    commitOk (commit [⟨[[3]], EntryKind.file [7]⟩] [⟨[[3]], EntryKind.file [9]⟩] true) = true ∧
    lookupKind (commitDest (commit [⟨[[3]], EntryKind.file [7]⟩]
      [⟨[[3]], EntryKind.file [9]⟩] true)) [[3]] = some (.file [7]) :=
  commit_force_overwrites_file [⟨[[3]], EntryKind.file [7]⟩] [⟨[[3]], EntryKind.file [9]⟩]
    ⟨[[3]], EntryKind.file [7]⟩ [7]
    (List.Pairwise.cons (fun b hb => absurd hb (List.not_mem_nil b)) List.Pairwise.nil)
    (by decide) rfl (by decide)

/-- C6: when the extraction root does not hold exactly one top-level
directory, processing stops with the structural-failure exit code 4 —
distinct from success (0), download failure (3), conflict abort (5) and
empty result (6) — and the destination tree is returned untouched. -/
theorem structural_failure_when_not_single_top (extracted : List Entry)
    (spec : ReplacementSpec) (force : Bool) (dest : List Entry)
    (h : (topLevelDirs extracted).length ≠ 1) :
    runAfterExtract extracted spec force dest = (4, dest) ∧
    (4 : Nat) ≠ 0 ∧ (4 : Nat) ≠ 3 ∧ (4 : Nat) ≠ 5 ∧ (4 : Nat) ≠ 6 := by
  refine ⟨?_, by decide, by decide, by decide, by decide⟩
  rcases htop : topLevelDirs extracted with _ | ⟨t, _ | ⟨t2, rest⟩⟩
  · simp [runAfterExtract, htop]
  · exact absurd (by rw [htop]; rfl) h
  · simp [runAfterExtract, htop]

theorem structural_failure_when_not_single_top_witness :
    runAfterExtract [⟨[[1]], EntryKind.directory⟩, ⟨[[2]], EntryKind.directory⟩]
      ⟨[1], [2], [3], none⟩ false [] = (4, []) :=
  (structural_failure_when_not_single_top _ _ _ _ (by decide)).1

/-- C7 counterexample to the claim as stated: a secondary replacement is
configured (`some []`, the CLI's `-m ""`), yet the source skips the
secondary substitution — Python truthiness treats the empty maintainer as
absent (src/main.py:90) — so the secondary token survives, while the
claimed "iff configured" rewriter erases it. -/
theorem claim_secondary_iff_configured_counterexample :
    (⟨[1], [1], [2], some []⟩ : ReplacementSpec).secondaryReplacement ≠ none ∧
    rewriteContent ⟨[1], [1], [2], some []⟩ [2] = [2] ∧
    rewriteContentIfConfigured ⟨[1], [1], [2], some []⟩ [2] = [] ∧
    rewriteContent ⟨[1], [1], [2], some []⟩ [2]
      ≠ rewriteContentIfConfigured ⟨[1], [1], [2], some []⟩ [2] := by
  decide

/-- C7 (amended: the secondary substitution runs if and only if a
*non-empty* secondary replacement is configured): the Token Rewriter
applies the primary substitution first and the secondary one afterward on
the result exactly when `secondaryActive`, and path rewriting is entirely
independent of the secondary configuration. -/
theorem rewriter_order_and_scope (spec : ReplacementSpec) (s : List Nat) :
    rewriteContent spec s =
      (if secondaryActive spec = true then
        pyReplace spec.secondaryToken (spec.secondaryReplacement.getD [])
          (pyReplace spec.primaryToken spec.primaryReplacement s)
      else pyReplace spec.primaryToken spec.primaryReplacement s) ∧
    ∀ (st : List Nat) (m : Option (List Nat)) (p : List (List Nat)),
      pathRewrite ⟨spec.primaryToken, spec.primaryReplacement, st, m⟩ p = pathRewrite spec p := by
  refine ⟨?_, fun st m p => rfl⟩
  obtain ⟨pt, pr, st0, m0⟩ := spec
  cases m0 with
  | none => simp [rewriteContent, secondaryActive]
  | some m =>
    by_cases hm : m.isEmpty = true
    · simp [rewriteContent, secondaryActive, hm]
    · simp [rewriteContent, secondaryActive, hm]

/-- C8 counterexample to the claim as stated: with primary token `"ab"`
and replacement `"a"` — a replacement containing no occurrence of the
token — rewriting `"abb"` once gives `"ab"` and twice gives `"a"`: a fresh
occurrence forms across the replacement boundary, so the claimed
idempotence fails. -/
theorem claim_idempotent_clean_replacement_counterexample :
    containsSeq (strLit "ab") (strLit "a") = false ∧
    rewriteContent ⟨strLit "ab", strLit "a", [0], none⟩
        (rewriteContent ⟨strLit "ab", strLit "a", [0], none⟩ (strLit "abb"))
      ≠ rewriteContent ⟨strLit "ab", strLit "a", [0], none⟩ (strLit "abb") := by
  decide

/-- C8 (amended): the Token Rewriter is idempotent once the once-rewritten
result contains no occurrence of the primary token, nor of the secondary
token when the secondary substitution is active — the condition the claim
states (token absent from the replacement text) is not sufficient. -/
theorem rewriter_idempotent_no_token_in_result (spec : ReplacementSpec) (s : List Nat)
    (h1 : containsSeq spec.primaryToken (rewriteContent spec s) = false)
    (h2 : secondaryActive spec = true →
      containsSeq spec.secondaryToken (rewriteContent spec s) = false) :
    rewriteContent spec (rewriteContent spec s) = rewriteContent spec s := by
  set y := rewriteContent spec s with hy
  have hprim : pyReplace spec.primaryToken spec.primaryReplacement y = y :=
    pyReplace_no_occur h1
  show rewriteContent spec y = y
  unfold rewriteContent
  cases hm0 : spec.secondaryReplacement with
  | none => simpa [hm0] using hprim
  | some m =>
    by_cases hm : m.isEmpty = true
    · simpa [hm0, hm] using hprim
    · have ha : secondaryActive spec = true := by simp [secondaryActive, hm0, hm]
      have hsec : pyReplace spec.secondaryToken m y = y := pyReplace_no_occur (h2 ha)
      simp only [hm0]
      rw [if_neg hm, hprim, hsec]

theorem rewriter_idempotent_no_token_in_result_witness :
    rewriteContent ⟨[1], [2], [3], none⟩ (rewriteContent ⟨[1], [2], [3], none⟩ [1])
      = rewriteContent ⟨[1], [2], [3], none⟩ [1] :=
  rewriter_idempotent_no_token_in_result ⟨[1], [2], [3], none⟩ [1] (by decide) (by decide)

/-- C9: the Path Rewriter rewrites each segment independently with the
primary substitution (a total operation), and a path none of whose segments
contains the token comes back identical. -/
theorem path_rewriter_segmentwise (spec : ReplacementSpec) (p : List (List Nat)) :
    pathRewrite spec p
      = p.map (fun seg => pyReplace spec.primaryToken spec.primaryReplacement seg) ∧
    ((∀ seg ∈ p, containsSeq spec.primaryToken seg = false) → pathRewrite spec p = p) := by
  refine ⟨rfl, fun h => ?_⟩
  unfold pathRewrite
  induction p with
  | nil => rfl
  | cons a as ih =>
    rw [List.map_cons, pyReplace_no_occur (h a (List.mem_cons_self _ _)),
      ih (fun seg hs => h seg (List.mem_cons_of_mem _ hs))]

theorem path_rewriter_segmentwise_witness :
    pathRewrite ⟨[1], [2], [3], none⟩ [[4], [5]] = [[4], [5]] :=
  (path_rewriter_segmentwise ⟨[1], [2], [3], none⟩ [[4], [5]]).2 (by decide)

/-- C10: exclusion fires only when the entry's whole relative-path string
equals a member of the exclusion set (by default exactly `README.md`), so
an entry with two or more segments — e.g. a `README.md` inside a
subdirectory — is never excluded and is staged like any other entry,
classified and rewritten. -/
theorem exclusion_is_whole_path_equality (spec : ReplacementSpec) (segs : List (List Nat))
    (k : EntryKind) (h : 2 ≤ segs.length) :
    (∀ q, isExcluded q = true ↔ pathStr q = strLit "README.md") ∧
    isExcluded segs = false ∧
    processEntry spec ⟨segs, k⟩ = some ⟨pathRewrite spec segs, processedKind spec k⟩ := by
  have hiff : ∀ q, isExcluded q = true ↔ pathStr q = strLit "README.md" := by
    intro q
    simp [isExcluded, EXCLUDE_FILES, List.contains, List.elem_cons]
  have hnx : isExcluded segs = false := by
    rcases segs with _ | ⟨a, _ | ⟨b, rest⟩⟩
    · simp at h
    · simp at h
    · by_contra hx
      rw [Bool.not_eq_false] at hx
      have hps := (hiff _).mp hx
      have h47 : (47 : Nat) ∈ pathStr (a :: b :: rest) := by
        show (47 : Nat) ∈ a ++ 47 :: pathStr (b :: rest)
        exact List.mem_append_right _ (List.mem_cons_self _ _)
      rw [hps] at h47
      exact absurd h47 (by decide)
  exact ⟨hiff, hnx, by simp [processEntry, hnx]⟩

theorem exclusion_is_whole_path_equality_witness :
    isExcluded [strLit "sub", strLit "README.md"] = false ∧
    processEntry ⟨[1], [2], [3], none⟩
        ⟨[strLit "sub", strLit "README.md"], EntryKind.file [65]⟩
      = some ⟨pathRewrite ⟨[1], [2], [3], none⟩ [strLit "sub", strLit "README.md"],
          processedKind ⟨[1], [2], [3], none⟩ (EntryKind.file [65])⟩ :=
  ⟨(exclusion_is_whole_path_equality ⟨[1], [2], [3], none⟩ [strLit "sub", strLit "README.md"]
      (EntryKind.file [65]) (by decide)).2.1,
   (exclusion_is_whole_path_equality ⟨[1], [2], [3], none⟩ [strLit "sub", strLit "README.md"]
      (EntryKind.file [65]) (by decide)).2.2⟩

